import Mathlib

/-!
Verification of the SDG scoring engine of `nlp_college`.

The definitions below are a shallow embedding of the Python sources:
  * `RuleBasedMatcher.match_sdgs`  (src/utils/rule_based_matcher.py)
  * `ModelLoader.predict_sdgs`, `ModelLoader._fallback_prediction`,
    `ModelLoader._preprocess_text`, `ModelLoader._extract_keywords`
    (src/utils/model_loader.py)
  * `SemanticMatcher.compute_similarities` (src/utils/semantic_matcher.py)
  * `ExplainableOutput._combine_results` (src/utils/explainable_output.py)
  * `analyze_sdgs`, `extract_keywords` (src/api/index.py)

Floating point arithmetic is modelled by exact rationals; Python's stable
`list.sort(key=..., reverse=True)` is modelled by a stable descending
insertion sort (`sortDesc`).
-/

namespace SDG

/- The Batteries rational-number operations are `@[irreducible]`, which
blocks the elaboration-time evaluation used by `decide` on the concrete
scenarios below; restore the default transparency locally. -/
attribute [local semireducible] Rat.mul Rat.add Rat.sub Rat.inv Rat.ofScientific

/-! ## Stable descending sort (model of Python `list.sort(key=k, reverse=True)`) -/

/-- Insert `x` into a list sorted non-increasingly by `key`, placing `x`
before the *first* element whose key it is ≥ to.  Inserting elements from
right to left this reproduces the stable descending order of Python's
`list.sort(key=..., reverse=True)`. -/
def insertDesc {α : Type} {β : Type} [LinearOrder β] (key : α → β) (x : α) : List α → List α
  | [] => [x]
  | y :: ys => if key y ≤ key x then x :: y :: ys else y :: insertDesc key x ys

/-- Stable descending sort by `key`. -/
def sortDesc {α : Type} {β : Type} [LinearOrder β] (key : α → β) : List α → List α
  | [] => []
  | x :: xs => insertDesc key x (sortDesc key xs)

/-! ## Text primitives shared by the matchers

Python string operations are modelled on `List Char`. -/

/-- Python's `str.lower()` restricted to the ASCII case mapping. -/
def lowerChars (s : List Char) : List Char := s.map Char.toLower

/-- A word character, as in Python's regex `\w` over ASCII: `[a-zA-Z0-9_]`. -/
def isWordChar (c : Char) : Bool := c.isAlphanum || c == '_'

/-- Whether the character at index `i` of `text` is a word character
(`false` past either end). -/
def wordAt (text : List Char) (i : Nat) : Bool :=
  match text.get? i with
  | some c => isWordChar c
  | none => false

/-- Whether the character just before index `i` is a word character. -/
def wordBefore (text : List Char) (i : Nat) : Bool :=
  match i with
  | 0 => false
  | j + 1 => wordAt text j

/-- The regex `\b` assertion at position `i` of `text`: the word-ness of the
two surrounding characters differs (a string edge counts as non-word). -/
def boundaryAt (text : List Char) (i : Nat) : Bool :=
  wordBefore text i != wordAt text i

/-- Model of Python's `re.search(r'\b' + re.escape(pat) + r'\b', text)`
(as a Bool): `pat` occurs literally at some position of `text` with a word
boundary at both ends. -/
def reSearchWord (pat : List Char) (text : List Char) : Bool :=
  (List.range (text.length + 1)).any fun i =>
    decide (i + pat.length ≤ text.length) &&
      ((text.drop i).take pat.length == pat) &&
      boundaryAt text i && boundaryAt text (i + pat.length)

/-- Python's `needle in haystack` substring test. -/
def containsSub (needle : List Char) (hay : List Char) : Bool :=
  (List.range (hay.length + 1)).any fun i => (hay.drop i).take needle.length == needle

/-! ## `RuleBasedMatcher.match_sdgs` (src/utils/rule_based_matcher.py)

A pattern table row, as read from the CSV: the `inclusion_patterns` and
`exclusion_patterns` cells are comma-separated strings (the source splits
them with `.split(',')` and strips each entry; a non-string cell would
yield an empty pattern list, which never arises on the CSV path). -/

structure PatternRow where
  sdg_number : Nat
  sdg_name : String
  inclusion_patterns : String
  exclusion_patterns : String
deriving DecidableEq, Repr

/-- The per-SDG record appended by `match_sdgs` (also the shape of the
`rule_results` consumed by the fusion engine). -/
structure MatchResult where
  sdg_number : Nat
  sdg_name : String
  confidence : ℚ
  matched_keywords : List String
  excluded_keywords : List String
  inclusion_scope : String
deriving DecidableEq, Repr

/-- Python's `str.strip()`. -/
def trimChars (l : List Char) : List Char :=
  ((l.dropWhile Char.isWhitespace).reverse.dropWhile Char.isWhitespace).reverse

/-- Split at every comma (Python's `cell.split(',')` — note
`''.split(',') == ['']`). -/
def splitComma (l : List Char) : List (List Char) :=
  l.foldr
    (fun c acc =>
      match acc with
      | [] => [[c]]
      | cur :: rest => if c = ',' then [] :: cur :: rest else (c :: cur) :: rest)
    [[]]

def splitPatterns (cell : String) : List String := (splitComma cell.data).map String.mk

/-- The text before and (when the separator occurs) after the first
occurrence of `sep` — the model of Python's `split(sep, 1)`. -/
def splitFirst (sep : List Char) : List Char → List Char × Option (List Char)
  | [] => ([], none)
  | c :: rest =>
      if sep.isPrefixOf (c :: rest) then ([], some ((c :: rest).drop sep.length))
      else
        let p := splitFirst sep rest
        (c :: p.1, p.2)

/-- The inclusion patterns of `row` matched in the lowercased text
(`pattern.strip()` is applied inside the regex, as in the source). -/
def inclusionMatches (text : String) (row : PatternRow) : List String :=
  (splitPatterns row.inclusion_patterns).filter fun p =>
    reSearchWord (trimChars p.data) (lowerChars text.data)

def exclusionMatches (text : String) (row : PatternRow) : List String :=
  (splitPatterns row.exclusion_patterns).filter fun p =>
    reSearchWord (trimChars p.data) (lowerChars text.data)

/-- `confidence = max(0.0, inclusion_score - exclusion_score)` with
`inclusion_score = len(inclusion_matches) * 0.3` and
`exclusion_score = len(exclusion_matches) * 0.5`. -/
def ruleConfidence (text : String) (row : PatternRow) : ℚ :=
  max 0 ((inclusionMatches text row).length * (3/10) -
    (exclusionMatches text row).length * (5/10))

/-- The dict appended for a row that passes the `> 0.1` threshold. -/
def mkMatchResult (text : String) (row : PatternRow) : MatchResult :=
  { sdg_number := row.sdg_number
    sdg_name := row.sdg_name
    confidence := ruleConfidence text row
    matched_keywords := inclusionMatches text row
    excluded_keywords := exclusionMatches text row
    inclusion_scope :=
      if 2 < (inclusionMatches text row).length then "broad" else "narrow" }

/-- `RuleBasedMatcher.match_sdgs`: score every row, keep rows with
confidence strictly above `0.1`, sort descending by confidence (stable) and
return the first 10. -/
def matchSdgs (rows : List PatternRow) (text : String) : List MatchResult :=
  ((rows.filterMap fun row =>
      if ruleConfidence text row > 1/10 then some (mkMatchResult text row) else none)
    |> sortDesc (·.confidence)).take 10

/-! ## `ModelLoader` (src/utils/model_loader.py) -/

/-- The record shape returned by `ModelLoader.predict_sdgs` and by the API's
`analyze_sdgs`. -/
structure SdgRec where
  sdg_number : Nat
  sdg_name : String
  confidence : ℚ
  matched_keywords : List String
  explanation : String
deriving DecidableEq, Repr

/-- `self.sdg_labels`. -/
def sdgLabels : List String :=
  [ "SDG 1: No Poverty", "SDG 2: Zero Hunger", "SDG 3: Good Health and Well-being",
    "SDG 4: Quality Education", "SDG 5: Gender Equality", "SDG 6: Clean Water and Sanitation",
    "SDG 7: Affordable and Clean Energy", "SDG 8: Decent Work and Economic Growth",
    "SDG 9: Industry, Innovation and Infrastructure", "SDG 10: Reduced Inequality",
    "SDG 11: Sustainable Cities and Communities", "SDG 12: Responsible Consumption and Production",
    "SDG 13: Climate Action", "SDG 14: Life Below Water", "SDG 15: Life on Land",
    "SDG 16: Peace, Justice and Strong Institutions", "SDG 17: Partnerships for the Goals" ]

/-- Python's `label.split(': ', 1)[1]`: everything after the first `": "`. -/
def afterColon (label : String) : String :=
  match splitFirst [':', ' '] label.data with
  | (_, some rest) => String.mk rest
  | (_, none) => ""

/-- `ModelLoader._preprocess_text`, step 3: `re.sub(r'\s+', ' ', ·)` —
collapse every whitespace run to a single space.  The flag records whether
the previous character was whitespace (structural recursion, so that the
kernel can evaluate concrete inputs). -/
def collapseWsAux : Bool → List Char → List Char
  | _, [] => []
  | prevWs, c :: cs =>
      if c.isWhitespace then
        if prevWs then collapseWsAux true cs else ' ' :: collapseWsAux true cs
      else c :: collapseWsAux false cs

def collapseWs (l : List Char) : List Char := collapseWsAux false l

def preprocessChars (s : List Char) : List Char :=
  let kept := (lowerChars s).filter fun c =>
    (('a' ≤ c && c ≤ 'z') || ('A' ≤ c && c ≤ 'Z') || c.isWhitespace : Bool)
  -- `re.sub(r'\s+', ' ', ·).strip()`: collapse, then strip a possible
  -- single leading/trailing space left by the collapse
  let collapsed := collapseWs kept
  let noLead := match collapsed with
    | ' ' :: rest => rest
    | l => l
  match noLead.reverse with
  | ' ' :: rest => rest.reverse
  | _ => noLead

def preprocessText (text : String) : String := String.mk (preprocessChars text.data)

/-- `ModelLoader._extract_keywords`: static per-SDG keyword table, matched
as plain substrings of the lowercased text, capped at 5. -/
def loaderKeywordTable (sdg_number : Nat) : List String :=
  match sdg_number with
  | 1 => ["poverty", "poor", "low income", "financial hardship", "economic disadvantage"]
  | 2 => ["hunger", "food security", "malnutrition", "famine", "agriculture", "crop"]
  | 3 => ["health", "well-being", "disease", "medical", "healthcare", "hygiene", "mental health"]
  | 4 => ["education", "school", "learning", "literacy", "educational", "student", "teacher"]
  | 5 => ["gender", "equality", "women", "female", "discrimination", "empowerment"]
  | 6 => ["water", "sanitation", "clean water", "hygiene", "wastewater", "water quality"]
  | 7 => ["energy", "renewable", "solar", "wind", "electricity", "affordable energy"]
  | 13 => ["climate", "carbon", "emission", "global warming", "sustainability", "environmental"]
  | 15 => ["forest", "biodiversity", "ecosystem", "wildlife", "conservation", "land"]
  | _ => []

def extractKeywords (text : String) (sdg_number : Nat) : List String :=
  ((loaderKeywordTable sdg_number).filter fun kw =>
    containsSub kw.data (lowerChars text.data)).take 5

/-- `ModelLoader._generate_explanation`. -/
def generateExplanation (sdg_number : Nat) (confidence : ℚ) (text : String) : String :=
  let template :=
    if confidence ≥ 7/10 then "Strong match with relevant terminology and context"
    else if confidence ≥ 4/10 then "Moderate match with some relevant indicators present"
    else "Weak match, may require manual verification"
  let keywords := (extractKeywords text sdg_number).take 3
  let keywordStr := if keywords.isEmpty then "general terms" else String.intercalate ", " keywords
  template ++ ". Key terms: " ++ keywordStr ++ "."

/-- The keyword lists of `_fallback_prediction`'s `sdg_matches` dict, in its
insertion order (significant: Python's stable sort keeps it on ties). -/
def fallbackTable : List (Nat × List String) :=
  [ (1, ["poverty", "poor", "low income"]),
    (2, ["hunger", "food security", "malnutrition"]),
    (3, ["health", "medical", "disease", "well-being"]),
    (13, ["climate", "carbon", "emission", "global warming"]),
    (15, ["forest", "biodiversity", "ecosystem", "wildlife"]) ]

/-- `len([w for w in kws if w in text_lower])`. -/
def fallbackCount (textLower : List Char) (kws : List String) : Nat :=
  (kws.filter fun w => containsSub w.data textLower).length

/-- The number of fallback keywords of category `n` present in `text`
(0 for a category not in the fallback table). -/
def fallbackCountFor (text : String) (n : Nat) : Nat :=
  match fallbackTable.find? (fun p => p.1 == n) with
  | some p => fallbackCount (lowerChars text.data) p.2
  | none => 0

/-- The sentinel record emitted when the fallback finds nothing. -/
def sentinelRec : SdgRec :=
  { sdg_number := 0
    sdg_name := "No SDGs Detected"
    confidence := 0
    matched_keywords := []
    explanation := "No relevant SDGs detected. Please ensure your trained model is placed in the models folder." }

/-- `ModelLoader._fallback_prediction`. -/
def fallbackPrediction (text : String) (top_k : Nat) : List SdgRec :=
  let textLower := lowerChars text.data
  let sdgMatches := fallbackTable.map fun p => (p.1, fallbackCount textLower p.2)
  let sorted := sortDesc (fun p : Nat × Nat => p.2) sdgMatches
  let recs := ((sorted.take top_k).filter fun p => 0 < p.2).map fun p =>
    { sdg_number := p.1
      sdg_name := afterColon (sdgLabels.getD (p.1 - 1) "")
      confidence := min (9/10) (p.2 * (3/10))
      matched_keywords := (["poverty", "food security", "health", "climate", "forest"].filter
        fun w => containsSub w.data textLower)
      explanation := "Fallback rule-based prediction - please train and place your model in models/sdg_classifier.joblib" }
  if recs.isEmpty then [sentinelRec] else recs

/-- `np.argsort(probabilities)[::-1]`: the indices of `probs` in descending
probability order (np's tie order is unspecified; modelled as a stable
ascending sort, then reversed). -/
def argsortDesc (probs : List ℚ) : List Nat :=
  sortDesc (fun i => probs.getD i 0) (List.range probs.length)

/-- The loop body of `predict_sdgs` on the classifier path. -/
def classifierResults (probs : List ℚ) (text : String) (top_k : Nat) : List SdgRec :=
  ((argsortDesc probs).take top_k).filterMap fun idx =>
    let prob := probs.getD idx 0
    if prob < 1/10 then none
    else some
      { sdg_number := idx + 1
        sdg_name := afterColon (sdgLabels.getD idx "")
        confidence := prob
        matched_keywords := extractKeywords text (idx + 1)
        explanation := generateExplanation (idx + 1) prob text }

/-- The loaded-model state: `None`, or a backend whose
`predict_proba([processed_text])[0]` either raises (`Except.error`) or
returns a probability vector. -/
inductive ModelState where
  | unloaded
  | loaded (predictProba : String → Except String (List ℚ))

/-- `ModelLoader.predict_sdgs`: a raised backend error is represented by
`Except.error` in the backend's result and is caught by the adapter's
`try`/`except`, which degrades to `_fallback_prediction`; the adapter
itself therefore always produces `Except.ok`. -/
def predictSdgs (m : ModelState) (text : String) (top_k : Nat) :
    Except String (List SdgRec) :=
  match m with
  | .unloaded => .ok (fallbackPrediction text top_k)
  | .loaded f =>
      match f (preprocessText text) with
      | .error _ => .ok (fallbackPrediction text top_k)
      | .ok probs => .ok (classifierResults probs text top_k)

/-! ## `SemanticMatcher.compute_similarities` (src/utils/semantic_matcher.py) -/

/-- The semantic-result shape consumed by the fusion engine (only the three
fields the fusion engine reads). -/
structure SemResult where
  sdg_number : Nat
  sdg_name : String
  avg_similarity : ℚ
deriving DecidableEq, Repr

/-- `SemanticMatcher.compute_similarities`: `[]` when no model is loaded,
otherwise `predict_sdgs(text, top_k=5)` reshaped with
`avg_similarity = confidence`.  (`predict_sdgs` never raises, so the outer
`except` branch returning `[]` is dead.) -/
def computeSimilarities (m : ModelState) (text : String) : List SemResult :=
  match m with
  | .unloaded => []
  | .loaded _ =>
      match predictSdgs m text 5 with
      | .error _ => []
      | .ok rs => rs.map fun r =>
          { sdg_number := r.sdg_number
            sdg_name := r.sdg_name
            avg_similarity := r.confidence }

/-! ## `analyze_sdgs` (src/api/index.py, zero-shot variant) -/

/-- The zero-shot pipeline's output: parallel lists of labels and scores,
already sorted by the pipeline in descending score order. -/
structure ZSOut where
  labels : List String
  scores : List ℚ
deriving DecidableEq, Repr

/-- `extract_keywords(text, sdg_label)` of the API module: the `sdg_label`
argument is unused in its body; a fixed common-keyword list is filtered by
substring presence, capped at 5. -/
def apiCommonKeywords : List String :=
  [ "poverty", "hunger", "health", "education", "gender", "water",
    "energy", "work", "innovation", "inequality", "cities", "consumption",
    "climate", "ocean", "land", "peace", "partnership", "sustainable",
    "development", "environment", "social", "economic" ]

def apiExtractKeywords (text : String) : List String :=
  (apiCommonKeywords.filter fun kw => containsSub kw.data (lowerChars text.data)).take 5

/-- `text[:1000] if len(text) > 1000 else text`. -/
def truncateForApi (text : String) : String :=
  if 1000 < text.data.length then String.mk (text.data.take 1000) else text

/-- The formatting loop of `analyze_sdgs`: for each of the first
`min(top_k, len(labels))` ranked labels, `sdg_name` is parsed from the label
text (`label.split(' - ')[0]`) but `sdg_number` is `i + 1`, the rank
position. -/
def formatZS (out : ZSOut) (text : String) (top_k : Nat) : List SdgRec :=
  (List.range (min top_k out.labels.length)).map fun i =>
    let label := out.labels.getD i ""
    let score := out.scores.getD i 0
    let keywords := apiExtractKeywords text
    { sdg_number := i + 1
      sdg_name := String.mk (splitFirst [' ', '-', ' '] label.data).1
      confidence := score
      matched_keywords := keywords
      explanation := "Analysis based on semantic similarity. Key themes: " ++
        String.intercalate ", " (keywords.take 3) }

/-- `analyze_sdgs`: no classifier loaded gives a fixed "Model Not Available"
record; a raised pipeline error is caught and gives the `sdg_number = 0`
"Analysis Error" record; otherwise the truncated text is classified and the
output formatted. -/
def analyzeSdgs (classifier : Option (String → Except String ZSOut))
    (text : String) (top_k : Nat) : List SdgRec :=
  match classifier with
  | none =>
      [{ sdg_number := 1, sdg_name := "Model Not Available", confidence := 0,
         matched_keywords := [], explanation := "Model is loading or unavailable" }]
  | some f =>
      match f (truncateForApi text) with
      | .error e =>
          [{ sdg_number := 0, sdg_name := "Analysis Error", confidence := 0,
             matched_keywords := [], explanation := e }]
      | .ok out => formatZS out (truncateForApi text) top_k

/-! ## `ExplainableOutput._combine_results` (src/utils/explainable_output.py)

The Python `combined` dict (keyed by `f"SDG{n}"`, so effectively by
`sdg_number`, insertion-ordered) is modelled as a `List Accum` with unique
`sdg_number`s, in insertion order. -/

structure Accum where
  sdg_number : Nat
  sdg_name : String
  rule_confidence : ℚ
  semantic_confidence : ℚ
  matched_keywords : List String
  excluded_keywords : List String
  inclusion_scope : String
  combined_confidence : ℚ
deriving DecidableEq, Repr

/-- The accumulator created when a rule result's SDG is seen first. -/
def newRuleAccum (r : MatchResult) : Accum :=
  { sdg_number := r.sdg_number
    sdg_name := r.sdg_name
    rule_confidence := r.confidence
    semantic_confidence := 0
    matched_keywords := r.matched_keywords
    excluded_keywords := r.excluded_keywords
    inclusion_scope := r.inclusion_scope
    combined_confidence := 0 }

/-- The in-place update for a rule result whose SDG is already present:
`rule_confidence = max(old, new)` and `matched_keywords.extend(new)`. -/
def updRuleAccum (a : Accum) (r : MatchResult) : Accum :=
  { a with rule_confidence := max a.rule_confidence r.confidence
           matched_keywords := a.matched_keywords ++ r.matched_keywords }

/-- The accumulator created when a semantic result's SDG is seen first. -/
def newSemAccum (s : SemResult) : Accum :=
  { sdg_number := s.sdg_number
    sdg_name := s.sdg_name
    rule_confidence := 0
    semantic_confidence := s.avg_similarity
    matched_keywords := []
    excluded_keywords := []
    inclusion_scope := "unknown"
    combined_confidence := 0 }

/-- One iteration of the `for result in rule_results` loop. -/
def addRule (m : List Accum) (r : MatchResult) : List Accum :=
  if m.any (fun a => a.sdg_number == r.sdg_number) then
    m.map fun a => if a.sdg_number == r.sdg_number then updRuleAccum a r else a
  else m ++ [newRuleAccum r]

/-- One iteration of the `for result in semantic_results` loop:
`semantic_confidence` is overwritten for an existing key. -/
def addSem (m : List Accum) (s : SemResult) : List Accum :=
  if m.any (fun a => a.sdg_number == s.sdg_number) then
    m.map fun a =>
      if a.sdg_number == s.sdg_number then
        { a with semantic_confidence := s.avg_similarity }
      else a
  else m ++ [newSemAccum s]

/-- The final per-accumulator pass: compute
`combined_confidence = rule_confidence * 0.4 + semantic_confidence * 0.6`
and deduplicate `matched_keywords` (`list(set(...))`; set order is
arbitrary in Python, modelled as first-occurrence dedup — all stated
properties are order-insensitive). -/
def finalizeAccum (a : Accum) : Accum :=
  { a with combined_confidence :=
             a.rule_confidence * (4/10) + a.semantic_confidence * (6/10)
           matched_keywords := a.matched_keywords.dedup }

/-- The accumulator list before the final sort, in dict insertion order. -/
def combinePre (rule : List MatchResult) (sem : List SemResult) : List Accum :=
  ((sem.foldl addSem (rule.foldl addRule [])).map finalizeAccum)

/-- `ExplainableOutput._combine_results`: build the keyed accumulators from
rule results then semantic results, finalize, and stably sort descending by
`combined_confidence`. -/
def combineResults (rule : List MatchResult) (sem : List SemResult) : List Accum :=
  sortDesc (·.combined_confidence) (combinePre rule sem)

/-- `generate_explanation`'s `top_3_sdgs = combined_results[:3]`. -/
def top3Sdgs (rule : List MatchResult) (sem : List SemResult) : List Accum :=
  (combineResults rule sem).take 3

/-! ## Concrete inputs used in witnesses and counterexamples

`povertyRow` and `healthRow` are the SDG 1 and SDG 3 rows of the default
pattern table (`_create_default_patterns`), with their pattern lists
rendered as the comma-separated CSV cells `match_sdgs` splits. -/

def povertyRow : PatternRow :=
  { sdg_number := 1
    sdg_name := "No Poverty"
    inclusion_patterns := "poverty,poor,low income,financial hardship,economic disadvantage,income inequality"
    exclusion_patterns := "rich,wealthy,high income,luxury" }

def healthRow : PatternRow :=
  { sdg_number := 3
    sdg_name := "Good Health and Well-being"
    inclusion_patterns := "health,well-being,disease prevention,healthcare,medical,vaccination,mental health,hygiene"
    exclusion_patterns := "disease outbreak,pandemic,health crisis" }

/-- A pattern table of 11 rows that all match the text `"poverty"`. -/
def elevenRows : List PatternRow :=
  (List.range 11).map fun i =>
    { sdg_number := i + 1
      sdg_name := "Category"
      inclusion_patterns := "poverty"
      exclusion_patterns := "luxury" }

/-- Two rule results with equal confidence, higher SDG number first. -/
def ruleFive : MatchResult :=
  { sdg_number := 5, sdg_name := "Gender Equality", confidence := 3/10,
    matched_keywords := ["gender"], excluded_keywords := [], inclusion_scope := "narrow" }

def ruleTwo : MatchResult :=
  { sdg_number := 2, sdg_name := "Zero Hunger", confidence := 3/10,
    matched_keywords := ["hunger"], excluded_keywords := [], inclusion_scope := "narrow" }

def ruleTwoB : MatchResult :=
  { sdg_number := 2, sdg_name := "Zero Hunger", confidence := 3/5,
    matched_keywords := ["food security", "hunger"], excluded_keywords := [],
    inclusion_scope := "narrow" }

def semTwoA : SemResult := { sdg_number := 2, sdg_name := "Zero Hunger", avg_similarity := 1/2 }

def semTwoB : SemResult := { sdg_number := 2, sdg_name := "Zero Hunger", avg_similarity := 7/10 }

/-- A loaded backend whose invocation raises. -/
def failingModel : ModelState := .loaded fun _ => .error "backend failure"

/-- A 1001-character input and a probing backend that reports (through its
probability vector) whether the text it received is longer than 1000
characters. -/
def longText : String := String.mk (List.replicate 1001 'a')

def probingBackend : String → Except String (List ℚ) :=
  fun s => .ok (if 1000 < s.data.length then [9/10] else [1/2])

/-- A zero-shot pipeline ranking the Climate Action label (SDG 13) first. -/
def climateFirstPipeline : String → Except String ZSOut :=
  fun _ => .ok { labels := ["Climate Action - climate change mitigation"], scores := [99/100] }

/-- The `SDG_LABELS` list of src/api/index.py: position `i` is the label of
SDG `i + 1`. -/
def apiSdgLabels : List String :=
  [ "No Poverty - ending poverty in all forms",
    "Zero Hunger - food security and nutrition",
    "Good Health and Well-being - health and wellness",
    "Quality Education - inclusive education",
    "Gender Equality - women empowerment",
    "Clean Water and Sanitation - water access",
    "Affordable and Clean Energy - renewable energy",
    "Decent Work and Economic Growth - employment",
    "Industry Innovation and Infrastructure - technology",
    "Reduced Inequality - social equality",
    "Sustainable Cities and Communities - urban development",
    "Responsible Consumption and Production - sustainability",
    "Climate Action - climate change mitigation",
    "Life Below Water - ocean conservation",
    "Life on Land - biodiversity protection",
    "Peace Justice and Strong Institutions - governance",
    "Partnerships for the Goals - global cooperation" ]

/-! ## General lemmas about the stable sort -/

theorem perm_insertDesc {α β : Type} [LinearOrder β] (key : α → β) (x : α) (l : List α) :
    List.Perm (insertDesc key x l) (x :: l) := by
  induction l with
  | nil => simp [insertDesc]
  | cons y ys ih =>
      by_cases h : key y ≤ key x
      · simp [insertDesc, h]
      · simp only [insertDesc, if_neg h]
        exact ((ih.cons y).trans (List.Perm.swap x y ys))

theorem perm_sortDesc {α β : Type} [LinearOrder β] (key : α → β) (l : List α) :
    List.Perm (sortDesc key l) l := by
  induction l with
  | nil => simp [sortDesc]
  | cons x xs ih =>
      exact (perm_insertDesc key x (sortDesc key xs)).trans (ih.cons x)

theorem mem_sortDesc {α β : Type} [LinearOrder β] {key : α → β} {l : List α} {a : α} :
    a ∈ sortDesc key l ↔ a ∈ l :=
  (perm_sortDesc key l).mem_iff

theorem length_sortDesc {α β : Type} [LinearOrder β] (key : α → β) (l : List α) :
    (sortDesc key l).length = l.length :=
  (perm_sortDesc key l).length_eq

theorem pairwise_insertDesc {α β : Type} [LinearOrder β] {key : α → β} {l : List α} (x : α)
    (h : l.Pairwise (fun a b => key b ≤ key a)) :
    (insertDesc key x l).Pairwise (fun a b => key b ≤ key a) := by
  induction l with
  | nil => simp [insertDesc]
  | cons y ys ih =>
      rcases List.pairwise_cons.1 h with ⟨hy, hys⟩
      by_cases hxy : key y ≤ key x
      · simp only [insertDesc, if_pos hxy]
        refine List.pairwise_cons.2 ⟨?_, h⟩
        intro b hb
        rcases List.mem_cons.1 hb with rfl | hb
        · exact hxy
        · exact le_trans (hy b hb) hxy
      · simp only [insertDesc, if_neg hxy]
        refine List.pairwise_cons.2 ⟨?_, ih hys⟩
        intro b hb
        rcases List.mem_cons.1 ((perm_insertDesc key x ys).mem_iff.1 hb) with rfl | hb
        · exact le_of_not_le hxy
        · exact hy b hb

/-- The output of `sortDesc` is non-increasing in `key`. -/
theorem pairwise_sortDesc {α β : Type} [LinearOrder β] (key : α → β) (l : List α) :
    (sortDesc key l).Pairwise (fun a b => key b ≤ key a) := by
  induction l with
  | nil => simp [sortDesc]
  | cons x xs ih => exact pairwise_insertDesc x ih

/-- Stability: elements sharing one key value keep their relative order. -/
theorem filter_insertDesc {α β : Type} [LinearOrder β] [DecidableEq β]
    (key : α → β) (x : α) (l : List α) (c : β) :
    (insertDesc key x l).filter (fun a => key a = c) =
      if key x = c then x :: l.filter (fun a => key a = c)
      else l.filter (fun a => key a = c) := by
  induction l with
  | nil => by_cases h : key x = c <;> simp [insertDesc, h]
  | cons y ys ih =>
      by_cases hxy : key y ≤ key x
      · simp only [insertDesc, if_pos hxy]
        by_cases hx : key x = c <;> simp [List.filter_cons, hx]
      · simp only [insertDesc, if_neg hxy]
        have hyx : key x < key y := lt_of_not_le hxy
        by_cases hy : key y = c
        · have hx : ¬ key x = c := by
            intro hx; exact absurd (hx.trans hy.symm) (ne_of_lt hyx)
          simp [List.filter_cons, hy, hx, ih]
        · by_cases hx : key x = c <;> simp [List.filter_cons, hy, hx, ih]

theorem filter_sortDesc {α β : Type} [LinearOrder β] [DecidableEq β]
    (key : α → β) (l : List α) (c : β) :
    (sortDesc key l).filter (fun a => key a = c) = l.filter (fun a => key a = c) := by
  induction l with
  | nil => simp [sortDesc]
  | cons x xs ih =>
      by_cases hx : key x = c <;>
        simp [sortDesc, filter_insertDesc, hx, List.filter_cons, ih]



/-! ## Claim theorems -/

/-- C1: every accumulator built by `_combine_results` has
`combined_confidence` exactly `rule_confidence * 0.4 + semantic_confidence * 0.6`,
recomputed from the two stored confidence fields. -/
theorem C1_combined_confidence_recomputed (rule : List MatchResult) (sem : List SemResult)
    (a : Accum) (ha : a ∈ combineResults rule sem) :
    a.combined_confidence = a.rule_confidence * (4/10) + a.semantic_confidence * (6/10) := by
  have ha' := mem_sortDesc.1 ha
  simp only [combinePre, List.mem_map] at ha'
  obtain ⟨b, -, rfl⟩ := ha'
  rfl

/-- C1 witness: the invariant, instantiated on a concrete fusion run. -/
theorem C1_witness :
    (finalizeAccum (newRuleAccum ruleTwo)) ∈ combineResults [ruleTwo] [] ∧
    (finalizeAccum (newRuleAccum ruleTwo)).combined_confidence =
      (finalizeAccum (newRuleAccum ruleTwo)).rule_confidence * (4/10) +
      (finalizeAccum (newRuleAccum ruleTwo)).semantic_confidence * (6/10) :=
  ⟨by decide, C1_combined_confidence_recomputed [ruleTwo] [] _ (by decide)⟩

/-- C4 (amended): the fusion engine's accumulator list, and hence
`top_3_sdgs`, is sorted non-increasingly by `combined_confidence`; equal
`combined_confidence` values keep the accumulator map's insertion order
(rule results first, in input order), not ascending `sdg_number`. -/
theorem C4_sorted_by_combined_confidence (rule : List MatchResult) (sem : List SemResult) :
    ((combineResults rule sem).Pairwise fun a b =>
        b.combined_confidence ≤ a.combined_confidence) ∧
    ((top3Sdgs rule sem).Pairwise fun a b =>
        b.combined_confidence ≤ a.combined_confidence) ∧
    ∀ c : ℚ, ((combineResults rule sem).filter fun a => a.combined_confidence = c) =
      ((combinePre rule sem).filter fun a => a.combined_confidence = c) := by
  refine ⟨pairwise_sortDesc _ _, ?_, fun c => filter_sortDesc _ _ c⟩
  exact (pairwise_sortDesc (·.combined_confidence) (combinePre rule sem)).sublist
    (List.take_sublist 3 _)

/-- C4 counterexample: two accumulators with equal `combined_confidence`
come out in insertion order `[5, 2]`, not in ascending `sdg_number` order
`[2, 5]`. -/
theorem C4_counterexample :
    ((combineResults [ruleFive, ruleTwo] []).map fun a => a.sdg_number) = [5, 2] ∧
    ((combineResults [ruleFive, ruleTwo] []).map fun a => a.combined_confidence) =
      [3/25, 3/25] := by
  decide


/-- C7: the model adapter's `predict_sdgs` never lets a backend exception
escape: it always returns a result sequence (`Except.ok`), and a backend
invocation that raises degrades to `_fallback_prediction`. -/
theorem C7_backend_errors_degrade_to_fallback :
    (∀ (m : ModelState) (text : String) (k : Nat),
        ∃ rs, predictSdgs m text k = Except.ok rs) ∧
    (∀ (f : String → Except String (List ℚ)) (text : String) (k : Nat) (e : String),
        f (preprocessText text) = Except.error e →
        predictSdgs (.loaded f) text k = Except.ok (fallbackPrediction text k)) := by
  constructor
  · intro m text k
    cases m with
    | unloaded => exact ⟨_, rfl⟩
    | loaded f =>
        cases h : f (preprocessText text) with
        | error e => exact ⟨fallbackPrediction text k, by simp [predictSdgs, h]⟩
        | ok probs => exact ⟨classifierResults probs text k, by simp [predictSdgs, h]⟩
  · intro f text k e h
    simp [predictSdgs, h]

/-- C7 witness: a backend that raises on every input is caught and
replaced by the fallback on a concrete text. -/
theorem C7_witness :
    (fun _ : String => (Except.error "boom" : Except String (List ℚ)))
        (preprocessText "gender equality") = Except.error "boom" ∧
    predictSdgs (.loaded fun _ => Except.error "boom") "gender equality" 3 =
      Except.ok (fallbackPrediction "gender equality" 3) :=
  ⟨rfl, C7_backend_errors_degrade_to_fallback.2 _ "gender equality" 3 "boom" rfl⟩


/-- C9 (amended): only the zero-shot variant truncates: `analyze_sdgs`
passes the classifier a prefix of at most 1000 characters of the input
text; the trained-classifier adapter (`ModelLoader.predict_sdgs`) passes
the full preprocessed text to the backend without truncation. -/
theorem C9_truncation_zero_shot_only (text : String) (f : String → Except String ZSOut)
    (k : Nat) :
    (truncateForApi text).data.length ≤ 1000 ∧
    (truncateForApi text).data.IsPrefix text.data ∧
    analyzeSdgs (some f) text k =
      (match f (truncateForApi text) with
       | .error e =>
           [{ sdg_number := 0, sdg_name := "Analysis Error", confidence := 0,
              matched_keywords := [], explanation := e }]
       | .ok out => formatZS out (truncateForApi text) k) := by
  refine ⟨?_, ?_, rfl⟩
  · unfold truncateForApi
    by_cases h : 1000 < text.data.length
    · rw [if_pos h]
      show (List.take 1000 text.data).length ≤ 1000
      rw [List.length_take]
      exact Nat.min_le_left _ _
    · rw [if_neg h]
      exact Nat.le_of_not_lt h
  · unfold truncateForApi
    by_cases h : 1000 < text.data.length
    · rw [if_pos h]
      exact List.take_prefix 1000 text.data
    · rw [if_neg h]

set_option maxRecDepth 100000 in
/-- C9 counterexample: a 1001-character text reaches the trained-classifier
backend untruncated — the probing backend reports confidence 0.9 exactly
when its input is longer than 1000 characters (it would report 0.5 on a
truncated input). -/
theorem C9_counterexample :
    (preprocessText longText).data.length = 1001 ∧
    ((predictSdgs (.loaded probingBackend) longText 1).toOption.getD []).map
        (fun r => r.confidence) = [9/10] := by
  constructor
  · decide
  · decide


/-- C10: in the zero-shot variant the returned record's `sdg_number` is
assigned from the rank position (`i + 1`), not parsed from the label text:
when the pipeline ranks the Climate Action label (the label of SDG 13,
`SDG_LABELS[12]`) first, the emitted record carries `sdg_number = 1`.
Only `sdg_name` is parsed from the label. -/
theorem C10_sdg_number_from_rank :
    ((analyzeSdgs (some climateFirstPipeline) "climate change mitigation strategies" 3).map
        fun r => (r.sdg_number, r.sdg_name)) = [(1, "Climate Action")] ∧
    apiSdgLabels.getD 12 "" = "Climate Action - climate change mitigation" := by
  constructor
  · decide
  · decide


/-! ## Lemmas for the pattern-based scorer -/

theorem filterMap_guard {α β : Type} (P : α → Prop) [DecidablePred P] (g : α → β)
    (l : List α) :
    (l.filterMap fun x => if P x then some (g x) else none) =
      (l.filter fun x => decide (P x)).map g := by
  induction l with
  | nil => simp
  | cons x xs ih =>
      by_cases h : P x <;> simp [List.filterMap_cons, List.filter_cons, h, ih]

/-- The list `match_sdgs` sorts and truncates. -/
def matchCandidates (rows : List PatternRow) (text : String) : List MatchResult :=
  rows.filterMap fun row =>
    if ruleConfidence text row > 1/10 then some (mkMatchResult text row) else none

theorem matchSdgs_eq (rows : List PatternRow) (text : String) :
    matchSdgs rows text = (sortDesc (·.confidence) (matchCandidates rows text)).take 10 := rfl

theorem mem_matchCandidates {rows : List PatternRow} {text : String} {rec : MatchResult} :
    rec ∈ matchCandidates rows text ↔
      ∃ row ∈ rows, 1/10 < ruleConfidence text row ∧ rec = mkMatchResult text row := by
  constructor
  · intro h
    rcases List.mem_filterMap.1 h with ⟨row, hrow, hif⟩
    by_cases hc : ruleConfidence text row > 1/10
    · rw [if_pos hc] at hif
      exact ⟨row, hrow, hc, (Option.some.inj hif).symm⟩
    · rw [if_neg hc] at hif
      exact Option.noConfusion hif
  · rintro ⟨row, hrow, hc, rfl⟩
    exact List.mem_filterMap.2 ⟨row, hrow, by rw [if_pos hc]⟩

/-- C2 (amended): `match_sdgs` emits a record for a row exactly when
`rule_confidence = max(0.0, 0.3 * inclusion_matches - 0.5 * exclusion_matches)`
is strictly greater than 0.1 — up to the final top-10 truncation: every
emitted record comes from a row above the threshold and carries that value
as its confidence, and conversely every above-threshold row is emitted
provided at most 10 rows are above the threshold.  Below-threshold rows are
silently dropped, never an error. -/
theorem C2_threshold_emission (rows : List PatternRow) (text : String) :
    (∀ rec ∈ matchSdgs rows text,
        1/10 < rec.confidence ∧
        ∃ row ∈ rows, 1/10 < ruleConfidence text row ∧ rec = mkMatchResult text row ∧
          rec.confidence = ruleConfidence text row) ∧
    ((rows.filter fun row => decide (1/10 < ruleConfidence text row)).length ≤ 10 →
      ∀ row ∈ rows, 1/10 < ruleConfidence text row →
        mkMatchResult text row ∈ matchSdgs rows text) := by
  constructor
  · intro rec hrec
    have h1 : rec ∈ sortDesc (·.confidence) (matchCandidates rows text) :=
      List.take_subset 10 _ (by simpa [matchSdgs_eq] using hrec)
    have h2 : rec ∈ matchCandidates rows text := mem_sortDesc.1 h1
    rcases mem_matchCandidates.1 h2 with ⟨row, hrow, hc, rfl⟩
    exact ⟨hc, row, hrow, hc, rfl, rfl⟩
  · intro hlen row hrow hc
    have hcand : matchCandidates rows text =
        (rows.filter fun row => decide (1/10 < ruleConfidence text row)).map
          (mkMatchResult text) := by
      simpa [matchCandidates, gt_iff_lt] using
        filterMap_guard (fun row => 1/10 < ruleConfidence text row)
          (mkMatchResult text) rows
    have hmem : mkMatchResult text row ∈ matchCandidates rows text :=
      mem_matchCandidates.2 ⟨row, hrow, hc, rfl⟩
    have hlen' : (sortDesc (·.confidence) (matchCandidates rows text)).length ≤ 10 := by
      rw [length_sortDesc, hcand, List.length_map]
      exact hlen
    rw [matchSdgs_eq, List.take_of_length_le hlen']
    exact mem_sortDesc.2 hmem

/-- C2 witness: the `iff` instantiated on a concrete single-row table. -/
theorem C2_witness :
    mkMatchResult "financial hardship" povertyRow ∈ matchSdgs [povertyRow] "financial hardship" ∧
    (1 : ℚ)/10 < (mkMatchResult "financial hardship" povertyRow).confidence :=
  ⟨(C2_threshold_emission [povertyRow] "financial hardship").2 (by decide) povertyRow
      (by decide) (by decide),
   ((C2_threshold_emission [povertyRow] "financial hardship").1 _
      ((C2_threshold_emission [povertyRow] "financial hardship").2 (by decide) povertyRow
        (by decide) (by decide))).1⟩

/-- C2 counterexample: with 11 rows all above the threshold, the row with
`sdg_number = 11` is above the threshold yet emits no record — the top-10
truncation breaks the claimed `iff`. -/
theorem C2_counterexample :
    (matchSdgs elevenRows "poverty").length = 10 ∧
    (∃ row ∈ elevenRows, row.sdg_number = 11 ∧ 1/10 < ruleConfidence "poverty" row) ∧
    (matchSdgs elevenRows "poverty").all fun rec => rec.sdg_number ≠ 11 := by
  refine ⟨by decide, ?_, by decide⟩
  decide


/-! ## Non-negativity invariants for the fusion fold -/

/-- Rule and semantic confidences stored in the accumulators stay
non-negative while folding a non-negative rule result. -/
theorem addRule_nonneg {m : List Accum} {r : MatchResult}
    (hm : ∀ a ∈ m, 0 ≤ a.rule_confidence ∧ 0 ≤ a.semantic_confidence)
    (hr : 0 ≤ r.confidence) :
    ∀ a ∈ addRule m r, 0 ≤ a.rule_confidence ∧ 0 ≤ a.semantic_confidence := by
  intro a ha
  unfold addRule at ha
  by_cases hmem : m.any fun b => b.sdg_number == r.sdg_number
  · rw [if_pos hmem] at ha
    rcases List.mem_map.1 ha with ⟨b, hb, rfl⟩
    by_cases hk : b.sdg_number == r.sdg_number
    · simp only [hk, if_pos]
      exact ⟨le_max_of_le_left (hm b hb).1, (hm b hb).2⟩
    · simp only [hk]
      simpa using hm b hb
  · rw [if_neg hmem] at ha
    rcases List.mem_append.1 ha with hb | hb
    · exact hm a hb
    · rcases List.mem_singleton.1 hb with rfl
      exact ⟨hr, le_refl 0⟩

theorem foldRule_nonneg {rule : List MatchResult} {m : List Accum}
    (hm : ∀ a ∈ m, 0 ≤ a.rule_confidence ∧ 0 ≤ a.semantic_confidence)
    (hr : ∀ r ∈ rule, 0 ≤ r.confidence) :
    ∀ a ∈ rule.foldl addRule m, 0 ≤ a.rule_confidence ∧ 0 ≤ a.semantic_confidence := by
  induction rule generalizing m with
  | nil => exact hm
  | cons r rs ih =>
      exact ih (addRule_nonneg hm (hr r (List.mem_cons_self r rs)))
        fun x hx => hr x (List.mem_cons_of_mem r hx)

theorem addSem_nonneg {m : List Accum} {s : SemResult}
    (hm : ∀ a ∈ m, 0 ≤ a.rule_confidence ∧ 0 ≤ a.semantic_confidence)
    (hs : 0 ≤ s.avg_similarity) :
    ∀ a ∈ addSem m s, 0 ≤ a.rule_confidence ∧ 0 ≤ a.semantic_confidence := by
  intro a ha
  unfold addSem at ha
  by_cases hmem : m.any fun b => b.sdg_number == s.sdg_number
  · rw [if_pos hmem] at ha
    rcases List.mem_map.1 ha with ⟨b, hb, rfl⟩
    by_cases hk : b.sdg_number == s.sdg_number
    · simp only [hk, if_pos]
      exact ⟨(hm b hb).1, hs⟩
    · simp only [hk]
      simpa using hm b hb
  · rw [if_neg hmem] at ha
    rcases List.mem_append.1 ha with hb | hb
    · exact hm a hb
    · rcases List.mem_singleton.1 hb with rfl
      exact ⟨le_refl 0, hs⟩

theorem foldSem_nonneg {sem : List SemResult} {m : List Accum}
    (hm : ∀ a ∈ m, 0 ≤ a.rule_confidence ∧ 0 ≤ a.semantic_confidence)
    (hs : ∀ s ∈ sem, 0 ≤ s.avg_similarity) :
    ∀ a ∈ sem.foldl addSem m, 0 ≤ a.rule_confidence ∧ 0 ≤ a.semantic_confidence := by
  induction sem generalizing m with
  | nil => exact hm
  | cons s ss ih =>
      exact ih (addSem_nonneg hm (hs s (List.mem_cons_self s ss)))
        fun x hx => hs x (List.mem_cons_of_mem s hx)

/-- C3 (amended): every confidence the engine emits is non-negative (and,
as an exact rational in this model, never NaN): pattern-scorer confidences
are `max 0 ·`; fallback confidences lie in `[0, 0.9]`; classifier-path
confidences are at least the 0.1 filter threshold; `combined_confidence`
is non-negative whenever the input confidences are.  The claimed *upper*
bound of 1.0 fails for the pattern-based scorer — four or more matched
inclusion patterns push its confidence above 1.0 (see the counterexample)
— and therefore also for `combined_confidence`. -/
theorem C3_confidence_bounds :
    (∀ (rows : List PatternRow) (text : String),
        ∀ rec ∈ matchSdgs rows text, 0 ≤ rec.confidence) ∧
    (∀ (text : String) (k : Nat),
        ∀ rec ∈ fallbackPrediction text k, 0 ≤ rec.confidence ∧ rec.confidence ≤ 9/10) ∧
    (∀ (probs : List ℚ) (text : String) (k : Nat),
        ∀ rec ∈ classifierResults probs text k, 1/10 ≤ rec.confidence) ∧
    (∀ (rule : List MatchResult) (sem : List SemResult),
        (∀ r ∈ rule, 0 ≤ r.confidence) → (∀ s ∈ sem, 0 ≤ s.avg_similarity) →
        ∀ a ∈ combineResults rule sem, 0 ≤ a.combined_confidence) := by
  refine ⟨?_, ?_, ?_, ?_⟩
  · intro rows text rec hrec
    have h2 : rec ∈ matchCandidates rows text :=
      mem_sortDesc.1 (List.take_subset 10 _ (by simpa [matchSdgs_eq] using hrec))
    rcases mem_matchCandidates.1 h2 with ⟨row, -, -, rfl⟩
    exact le_max_left 0 _
  · intro text k rec hrec
    simp only [fallbackPrediction] at hrec
    split at hrec
    · rcases List.mem_singleton.1 hrec with rfl
      exact ⟨le_refl 0, by norm_num [sentinelRec]⟩
    · rcases List.mem_map.1 hrec with ⟨p, hp, rfl⟩
      refine ⟨le_min (by norm_num) (mul_nonneg (Nat.cast_nonneg _) (by norm_num)), ?_⟩
      exact min_le_left _ _
  · intro probs text k rec hrec
    rcases List.mem_filterMap.1 hrec with ⟨idx, hidx, hif⟩
    simp only at hif
    by_cases hlow : probs.getD idx 0 < 1/10
    · rw [if_pos hlow] at hif
      exact Option.noConfusion hif
    · rw [if_neg hlow] at hif
      rw [← Option.some.inj hif]
      exact le_of_not_lt hlow
  · intro rule sem hrule hsem a ha
    have h1 : a ∈ combinePre rule sem := mem_sortDesc.1 ha
    rcases List.mem_map.1 h1 with ⟨b, hb, rfl⟩
    have hbb := foldSem_nonneg (foldRule_nonneg
      (fun x hx => absurd hx (List.not_mem_nil x)) hrule) hsem b hb
    show 0 ≤ b.rule_confidence * (4/10) + b.semantic_confidence * (6/10)
    exact add_nonneg (mul_nonneg hbb.1 (by norm_num)) (mul_nonneg hbb.2 (by norm_num))

/-- C3 witness: the bounds instantiated on concrete runs of the scorer, the
fallback, the classifier path and the fusion engine. -/
theorem C3_witness :
    (mkMatchResult "financial hardship" povertyRow ∈
        matchSdgs [povertyRow] "financial hardship" ∧
      0 ≤ (mkMatchResult "financial hardship" povertyRow).confidence) ∧
    (0 : ℚ) ≤ (finalizeAccum (newRuleAccum ruleTwo)).combined_confidence :=
  ⟨⟨by decide, C3_confidence_bounds.1 [povertyRow] "financial hardship" _ (by decide)⟩,
   C3_confidence_bounds.2.2.2 [ruleTwo] [] (by decide) (by decide) _ (by decide)⟩

/-- C3 counterexample: five matched inclusion patterns of the default
SDG 3 row give `rule_confidence = 1.5 > 1.0` — emitted confidences are not
bounded by 1.0. -/
theorem C3_counterexample :
    ((matchSdgs [healthRow] "health well-being healthcare medical vaccination").map
        fun rec => rec.confidence) = [3/2] ∧
    ¬ ((3 : ℚ)/2 ≤ 1) := by
  constructor
  · decide
  · norm_num


/-! ## The fallback prediction -/

/-- Every key of the fallback table is a non-zero SDG number. -/
theorem fallbackTable_keys_nonzero : ∀ q ∈ fallbackTable, q.1 ≠ 0 := by decide

/-- The category-count pairs `_fallback_prediction` ranks. -/
def fallbackMatches (text : String) : List (Nat × Nat) :=
  fallbackTable.map fun p => (p.1, fallbackCount (lowerChars text.data) p.2)

theorem fallbackPrediction_eq (text : String) (k : Nat) :
    fallbackPrediction text k =
      (let recs := (((sortDesc (fun p : Nat × Nat => p.2) (fallbackMatches text)).take k).filter
          fun p => 0 < p.2).map fun p =>
        { sdg_number := p.1
          sdg_name := afterColon (sdgLabels.getD (p.1 - 1) "")
          confidence := min (9/10) (p.2 * (3/10))
          matched_keywords := (["poverty", "food security", "health", "climate", "forest"].filter
            fun w => containsSub w.data (lowerChars text.data))
          explanation := "Fallback rule-based prediction - please train and place your model in models/sdg_classifier.joblib" }
      if recs.isEmpty then [sentinelRec] else recs) := rfl

/-- C6 (amended): with no backend loaded the fallback scores the fixed core
categories by how many of their listed keywords occur (as substrings) in
the lowercased text; an emitted category always has at least one keyword
occurrence and confidence exactly `min(0.9, count * 0.3)` — but only the
`top_k` categories with the highest counts are eligible, so a matching
category beyond `top_k` is dropped (see the counterexample); zero-count
categories are excluded, and (for `top_k ≥ 1`) the single sentinel record
`(0, "No SDGs Detected", 0.0)` is returned exactly when no core category
has any keyword occurrence. -/
theorem C6_fallback_scoring (text : String) (k : Nat) :
    (∀ rec ∈ fallbackPrediction text k, rec.sdg_number ≠ 0 →
        0 < fallbackCountFor text rec.sdg_number ∧
        rec.confidence =
          min ((9:ℚ)/10) ((fallbackCountFor text rec.sdg_number : ℚ) * (3/10)) ∧
        rec.sdg_name = afterColon (sdgLabels.getD (rec.sdg_number - 1) "")) ∧
    (1 ≤ k →
      (fallbackPrediction text k = [sentinelRec] ↔
        ∀ q ∈ fallbackTable, fallbackCount (lowerChars text.data) q.2 = 0)) := by
  have hmatches : ∀ p ∈ fallbackMatches text,
      ∃ q ∈ fallbackTable, p = (q.1, fallbackCount (lowerChars text.data) q.2) := by
    intro p hp
    rcases List.mem_map.1 hp with ⟨q, hq, rfl⟩
    exact ⟨q, hq, rfl⟩
  constructor
  · intro rec hrec hne
    rw [fallbackPrediction_eq] at hrec
    simp only at hrec
    split at hrec
    · rcases List.mem_singleton.1 hrec with rfl
      exact absurd rfl hne
    · rcases List.mem_map.1 hrec with ⟨p, hp, rfl⟩
      have hpos : 0 < p.2 := by simpa using (List.of_mem_filter hp)
      have hptake : p ∈ (sortDesc (fun p : Nat × Nat => p.2) (fallbackMatches text)).take k :=
        List.mem_of_mem_filter hp
      have hpm : p ∈ fallbackMatches text :=
        mem_sortDesc.1 (List.take_subset k _ hptake)
      rcases hmatches p hpm with ⟨q, hq, rfl⟩
      fin_cases hq
      · exact ⟨hpos, rfl, rfl⟩
      · exact ⟨hpos, rfl, rfl⟩
      · exact ⟨hpos, rfl, rfl⟩
      · exact ⟨hpos, rfl, rfl⟩
      · exact ⟨hpos, rfl, rfl⟩
  · intro hk
    constructor
    · intro hsent q hq
      by_contra hcnt
      have hcnt' : 0 < fallbackCount (lowerChars text.data) q.2 := Nat.pos_of_ne_zero hcnt
      -- the sorted head dominates, so the top-k filter is nonempty
      have hqm : (q.1, fallbackCount (lowerChars text.data) q.2) ∈ fallbackMatches text :=
        List.mem_map.2 ⟨q, hq, rfl⟩
      have hqs : (q.1, fallbackCount (lowerChars text.data) q.2) ∈
          sortDesc (fun p : Nat × Nat => p.2) (fallbackMatches text) := mem_sortDesc.2 hqm
      rcases hs : sortDesc (fun p : Nat × Nat => p.2) (fallbackMatches text) with _ | ⟨h, t⟩
      · rw [hs] at hqs
        exact absurd hqs (List.not_mem_nil _)
      · have hhead : 0 < h.2 := by
          rw [hs] at hqs
          rcases List.mem_cons.1 hqs with heq | hqt
          · rw [← heq]
            exact hcnt'
          · have hpw := pairwise_sortDesc (fun p : Nat × Nat => p.2) (fallbackMatches text)
            rw [hs] at hpw
            exact lt_of_lt_of_le hcnt' ((List.pairwise_cons.1 hpw).1 _ hqt)
        have hhtake : h ∈ (sortDesc (fun p : Nat × Nat => p.2) (fallbackMatches text)).take k := by
          rw [hs]
          cases k with
          | zero => exact absurd hk (by norm_num)
          | succ k' => exact List.mem_cons_self h _
        have hhfil : h ∈ ((sortDesc (fun p : Nat × Nat => p.2) (fallbackMatches text)).take
            k).filter fun p => 0 < p.2 :=
          List.mem_filter.2 ⟨hhtake, by simpa using hhead⟩
        have hsub : sentinelRec.sdg_number ≠ 0 := by
          have hmem0 : sentinelRec ∈ fallbackPrediction text k := by
            rw [hsent]
            exact List.mem_singleton.2 rfl
          rw [fallbackPrediction_eq] at hmem0
          simp only at hmem0
          split at hmem0
          case isTrue hemp =>
            rw [List.isEmpty_iff] at hemp
            rw [List.map_eq_nil_iff] at hemp
            rw [hemp] at hhfil
            exact absurd hhfil (List.not_mem_nil _)
          case isFalse =>
            rcases List.mem_map.1 hmem0 with ⟨p, hp, hrec⟩
            have hpm : p ∈ fallbackMatches text :=
              mem_sortDesc.1 (List.take_subset k _ (List.mem_of_mem_filter hp))
            rcases hmatches p hpm with ⟨q', hq', rfl⟩
            have hnum := congrArg SdgRec.sdg_number hrec
            simp only at hnum
            rw [← hnum]
            exact fallbackTable_keys_nonzero q' hq'
        exact hsub rfl
    · intro hzero
      rw [fallbackPrediction_eq]
      simp only
      have hfil : (((sortDesc (fun p : Nat × Nat => p.2) (fallbackMatches text)).take k).filter
          fun p => 0 < p.2) = [] := by
        rw [List.filter_eq_nil_iff]
        intro p hp
        have hpm : p ∈ fallbackMatches text :=
          mem_sortDesc.1 (List.take_subset k _ hp)
        rcases hmatches p hpm with ⟨q, hq, rfl⟩
        simp [hzero q hq]
      rw [hfil]
      rfl


/-- C6 witness: on `"climate carbon"` the fallback emits the SDG 13 record
with confidence `min(0.9, 2 * 0.3)`. -/
theorem C6_witness :
    ((fallbackPrediction "climate carbon" 3).headD sentinelRec) ∈
        fallbackPrediction "climate carbon" 3 ∧
    ((fallbackPrediction "climate carbon" 3).headD sentinelRec).sdg_number = 13 ∧
    ((fallbackPrediction "climate carbon" 3).headD sentinelRec).confidence =
      min ((9:ℚ)/10) ((fallbackCountFor "climate carbon"
        ((fallbackPrediction "climate carbon" 3).headD sentinelRec).sdg_number : ℚ) * (3/10)) :=
  ⟨by decide, by decide,
    ((C6_fallback_scoring "climate carbon" 3).1 _ (by decide) (by decide)).2.1⟩

/-- C6 counterexample: on `"poverty hunger health climate"` the SDG 13
category has a keyword occurrence (`count = 1`), yet with `top_k = 3` the
fallback emits only SDGs 1, 2 and 3 — a category with occurrences is
dropped by the `top_k` cut, so the claim's "a category with at least one
keyword occurrence gets confidence min(0.9, count*0.3)" fails. -/
theorem C6_counterexample :
    fallbackCountFor "poverty hunger health climate" 13 = 1 ∧
    (fallbackPrediction "poverty hunger health climate" 3).length = 3 ∧
    ((fallbackPrediction "poverty hunger health climate" 3).all
      fun r => r.sdg_number ≠ 13) := by
  refine ⟨by decide, by decide, by decide⟩


/-! ## Sentinel isolation -/

/-- The fallback either returns the lone sentinel or only real SDG
numbers. -/
theorem fallback_shape (text : String) (k : Nat) :
    fallbackPrediction text k = [sentinelRec] ∨
      ∀ r ∈ fallbackPrediction text k, r.sdg_number ≠ 0 := by
  rw [fallbackPrediction_eq]
  simp only
  split
  · exact Or.inl rfl
  · refine Or.inr ?_
    intro r hr
    rcases List.mem_map.1 hr with ⟨p, hp, rfl⟩
    have hpm : p ∈ fallbackMatches text :=
      mem_sortDesc.1 (List.take_subset k _ (List.mem_of_mem_filter hp))
    rcases List.mem_map.1 hpm with ⟨q, hq, rfl⟩
    exact fallbackTable_keys_nonzero q hq

/-- C8 (amended): within the model adapter the sentinel invariant holds —
any result sequence of `predict_sdgs` (and of the API's `analyze_sdgs`)
containing an `sdg_number = 0` record is that lone sentinel record.  The
fusion engine, however, does not enforce it (see the counterexample): a
sentinel arriving in its semantic input is fused alongside real rule-based
results. -/
theorem C8_sentinel_isolation :
    (∀ (m : ModelState) (text : String) (k : Nat) (rs : List SdgRec),
        predictSdgs m text k = Except.ok rs →
        (∃ r ∈ rs, r.sdg_number = 0) → rs = [sentinelRec]) ∧
    (∀ (cls : Option (String → Except String ZSOut)) (text : String) (k : Nat),
        (∃ r ∈ analyzeSdgs cls text k, r.sdg_number = 0) →
        ∃ e, analyzeSdgs cls text k =
          [{ sdg_number := 0, sdg_name := "Analysis Error", confidence := 0,
             matched_keywords := [], explanation := e }]) := by
  constructor
  · have hfb : ∀ (text : String) (k : Nat),
        (∃ r ∈ fallbackPrediction text k, r.sdg_number = 0) →
        fallbackPrediction text k = [sentinelRec] := by
      intro text k hex
      rcases fallback_shape text k with h | h
      · exact h
      · rcases hex with ⟨r, hr, h0⟩
        exact absurd h0 (h r hr)
    intro m text k rs hok hex
    cases m with
    | unloaded =>
        have hrs : rs = fallbackPrediction text k := (Except.ok.inj hok).symm
        subst hrs
        exact hfb text k hex
    | loaded f =>
        rcases hf : f (preprocessText text) with e | probs
        · rw [predictSdgs, hf] at hok
          have hrs : rs = fallbackPrediction text k := (Except.ok.inj hok).symm
          subst hrs
          exact hfb text k hex
        · rw [predictSdgs, hf] at hok
          have hrs : rs = classifierResults probs text k := (Except.ok.inj hok).symm
          subst hrs
          rcases hex with ⟨r, hr, h0⟩
          rcases List.mem_filterMap.1 hr with ⟨idx, -, hif⟩
          simp only at hif
          by_cases hlow : probs.getD idx 0 < 1/10
          · rw [if_pos hlow] at hif
            exact Option.noConfusion hif
          · rw [if_neg hlow] at hif
            have := congrArg SdgRec.sdg_number (Option.some.inj hif)
            simp only at this
            rw [← this] at h0
            exact absurd h0 (Nat.succ_ne_zero idx)
  · intro cls text k hex
    cases cls with
    | none =>
        rcases hex with ⟨r, hr, h0⟩
        rcases List.mem_singleton.1 hr with rfl
        exact absurd h0 one_ne_zero
    | some f =>
        rcases hf : f (truncateForApi text) with e | out
        · refine ⟨e, ?_⟩
          rw [analyzeSdgs, hf]
        · rcases hex with ⟨r, hr, h0⟩
          rw [analyzeSdgs, hf] at hr
          rcases List.mem_map.1 hr with ⟨i, -, rfl⟩
          exact absurd h0 (Nat.succ_ne_zero i)

/-- C8 witness: a sole-sentinel result sequence of the adapter. -/
theorem C8_witness :
    predictSdgs failingModel "zzz" 3 = Except.ok [sentinelRec] ∧
    [sentinelRec] = [sentinelRec] :=
  ⟨rfl,
    C8_sentinel_isolation.1 failingModel "zzz" 3 [sentinelRec] rfl
      ⟨sentinelRec, List.mem_singleton.2 rfl, rfl⟩⟩

/-- C8 counterexample: when the loaded backend raises on a text that has a
rule match but no fallback keyword, the semantic scorer hands the fusion
engine the sentinel, and `top_3_sdgs` contains the sentinel (SDG 0) next
to the real SDG 1 result. -/
theorem C8_counterexample :
    ((top3Sdgs (matchSdgs [povertyRow] "financial hardship")
        (computeSimilarities failingModel "financial hardship")).map
      fun a => a.sdg_number) = [1, 0] := by
  decide


/-! ## The keyed accumulator map: lookup lemmas for the fusion fold -/

/-- Lookup in the accumulator map (the Python dict access by `f"SDG{n}"`). -/
def findA (n : Nat) (m : List Accum) : Option Accum :=
  m.find? fun a => a.sdg_number == n

/-- The effect of one rule iteration on the entry at key `n`, as a step
function on the optional entry. -/
def ruleStep (acc : Option Accum) (r : MatchResult) : Option Accum :=
  match acc with
  | some a => some (updRuleAccum a r)
  | none => some (newRuleAccum r)

/-- The effect of one semantic iteration on the entry at key `n`. -/
def semStep (acc : Option Accum) (s : SemResult) : Option Accum :=
  match acc with
  | some a => some { a with semantic_confidence := s.avg_similarity }
  | none => some (newSemAccum s)

theorem findA_map {g : Accum → Accum} (hg : ∀ a, (g a).sdg_number = a.sdg_number)
    (n : Nat) (m : List Accum) : findA n (m.map g) = (findA n m).map g := by
  induction m with
  | nil => rfl
  | cons a as ih =>
      unfold findA at ih ⊢
      rw [List.map_cons, List.find?_cons, List.find?_cons]
      rw [hg a]
      by_cases h : (a.sdg_number == n) = true
      · rw [h]
        rfl
      · rw [Bool.not_eq_true] at h
        rw [h]
        exact ih

theorem find?_append {α : Type} (p : α → Bool) (l₁ l₂ : List α) :
    (l₁ ++ l₂).find? p =
      (match l₁.find? p with
       | some a => some a
       | none => l₂.find? p) := by
  induction l₁ with
  | nil => rfl
  | cons a as ih =>
      rw [List.cons_append, List.find?_cons, List.find?_cons]
      by_cases h : p a = true
      · rw [h]
      · rw [Bool.not_eq_true] at h
        rw [h, ih]

theorem findA_eq_none_of_not_any {m : List Accum} {n : Nat}
    (h : (m.any fun a => a.sdg_number == n) ≠ true) : findA n m = none := by
  rw [findA, List.find?_eq_none]
  intro a ha hk
  exact h (List.any_eq_true.2 ⟨a, ha, hk⟩)

theorem findA_addRule (m : List Accum) (r : MatchResult) (n : Nat) :
    findA n (addRule m r) =
      if r.sdg_number = n then ruleStep (findA n m) r else findA n m := by
  unfold addRule
  by_cases hmem : (m.any fun b => b.sdg_number == r.sdg_number) = true
  · rw [if_pos hmem]
    have hg : ∀ a : Accum,
        ((if a.sdg_number == r.sdg_number then updRuleAccum a r else a)).sdg_number =
          a.sdg_number := by
      intro a
      by_cases h : (a.sdg_number == r.sdg_number) = true
      · rw [if_pos h]
        rfl
      · rw [if_neg h]
    rw [findA_map hg]
    by_cases hrn : r.sdg_number = n
    · rcases List.any_eq_true.1 hmem with ⟨b, hb, hkb⟩
      have hsome : (findA n m).isSome := by
        rw [findA, List.find?_isSome]
        exact ⟨b, hb, by rw [beq_iff_eq] at hkb ⊢; rw [hkb]; exact hrn⟩
      rcases Option.isSome_iff_exists.1 hsome with ⟨a, ha⟩
      have hka : a.sdg_number = n := by
        have hpa := List.find?_some ha
        rwa [beq_iff_eq] at hpa
      rw [ha, if_pos hrn]
      show some (if a.sdg_number == r.sdg_number then updRuleAccum a r else a) =
        some (updRuleAccum a r)
      rw [if_pos (by rw [beq_iff_eq, hka, hrn])]
    · rw [if_neg hrn]
      rcases hfind : findA n m with - | a
      · rfl
      · have hka : a.sdg_number = n := by
          have hpa := List.find?_some hfind
          rwa [beq_iff_eq] at hpa
        show some (if a.sdg_number == r.sdg_number then updRuleAccum a r else a) = some a
        rw [if_neg (by rw [beq_iff_eq, hka]; exact fun h => hrn h.symm)]
  · rw [if_neg hmem]
    rw [findA, find?_append, ← findA]
    by_cases hrn : r.sdg_number = n
    · rw [findA_eq_none_of_not_any (by rw [hrn] at hmem; exact hmem)]
      rw [if_pos hrn]
      rw [List.find?_cons]
      have hk : ((newRuleAccum r).sdg_number == n) = true := by
        rw [beq_iff_eq]
        exact hrn
      rw [hk]
      rfl
    · rw [if_neg hrn]
      rcases hfind : findA n m with - | a
      · have hk : ((newRuleAccum r).sdg_number == n) = false := by
          rw [beq_eq_false_iff_ne]
          exact hrn
        rw [List.find?_cons, hk, List.find?_nil]
      · rfl

theorem findA_addSem (m : List Accum) (s : SemResult) (n : Nat) :
    findA n (addSem m s) =
      if s.sdg_number = n then semStep (findA n m) s else findA n m := by
  unfold addSem
  by_cases hmem : (m.any fun b => b.sdg_number == s.sdg_number) = true
  · rw [if_pos hmem]
    have hg : ∀ a : Accum,
        ((if a.sdg_number == s.sdg_number then
            { a with semantic_confidence := s.avg_similarity } else a)).sdg_number =
          a.sdg_number := by
      intro a
      by_cases h : (a.sdg_number == s.sdg_number) = true
      · rw [if_pos h]
      · rw [if_neg h]
    rw [findA_map hg]
    by_cases hsn : s.sdg_number = n
    · rcases List.any_eq_true.1 hmem with ⟨b, hb, hkb⟩
      have hsome : (findA n m).isSome := by
        rw [findA, List.find?_isSome]
        exact ⟨b, hb, by rw [beq_iff_eq] at hkb ⊢; rw [hkb]; exact hsn⟩
      rcases Option.isSome_iff_exists.1 hsome with ⟨a, ha⟩
      have hka : a.sdg_number = n := by
        have hpa := List.find?_some ha
        rwa [beq_iff_eq] at hpa
      rw [ha, if_pos hsn]
      show some (if a.sdg_number == s.sdg_number then
          { a with semantic_confidence := s.avg_similarity } else a) =
        some { a with semantic_confidence := s.avg_similarity }
      rw [if_pos (by rw [beq_iff_eq, hka, hsn])]
    · rw [if_neg hsn]
      rcases hfind : findA n m with - | a
      · rfl
      · have hka : a.sdg_number = n := by
          have hpa := List.find?_some hfind
          rwa [beq_iff_eq] at hpa
        show some (if a.sdg_number == s.sdg_number then
            { a with semantic_confidence := s.avg_similarity } else a) = some a
        rw [if_neg (by rw [beq_iff_eq, hka]; exact fun h => hsn h.symm)]
  · rw [if_neg hmem]
    rw [findA, find?_append, ← findA]
    by_cases hsn : s.sdg_number = n
    · rw [findA_eq_none_of_not_any (by rw [hsn] at hmem; exact hmem)]
      rw [if_pos hsn]
      rw [List.find?_cons]
      have hk : ((newSemAccum s).sdg_number == n) = true := by
        rw [beq_iff_eq]
        exact hsn
      rw [hk]
      rfl
    · rw [if_neg hsn]
      rcases hfind : findA n m with - | a
      · have hk : ((newSemAccum s).sdg_number == n) = false := by
          rw [beq_eq_false_iff_ne]
          exact hsn
        rw [List.find?_cons, hk, List.find?_nil]
      · rfl


theorem findA_foldRule (rs : List MatchResult) (m : List Accum) (n : Nat) :
    findA n (rs.foldl addRule m) =
      (rs.filter fun r => r.sdg_number == n).foldl ruleStep (findA n m) := by
  induction rs generalizing m with
  | nil => rfl
  | cons r rs ih =>
      rw [List.foldl_cons, ih (addRule m r), findA_addRule, List.filter_cons]
      by_cases h : r.sdg_number = n
      · rw [if_pos h]
        have hb : (r.sdg_number == n) = true := beq_iff_eq.2 h
        rw [hb, if_pos rfl, List.foldl_cons]
      · rw [if_neg h]
        have hb : (r.sdg_number == n) = false := beq_eq_false_iff_ne.2 h
        rw [hb, if_neg Bool.false_ne_true]

theorem findA_foldSem (ss : List SemResult) (m : List Accum) (n : Nat) :
    findA n (ss.foldl addSem m) =
      (ss.filter fun s => s.sdg_number == n).foldl semStep (findA n m) := by
  induction ss generalizing m with
  | nil => rfl
  | cons s ss ih =>
      rw [List.foldl_cons, ih (addSem m s), findA_addSem, List.filter_cons]
      by_cases h : s.sdg_number = n
      · rw [if_pos h]
        have hb : (s.sdg_number == n) = true := beq_iff_eq.2 h
        rw [hb, if_pos rfl, List.foldl_cons]
      · rw [if_neg h]
        have hb : (s.sdg_number == n) = false := beq_eq_false_iff_ne.2 h
        rw [hb, if_neg Bool.false_ne_true]

/-- Folding the per-key rule step over an existing entry: the rule
confidence accumulates by `max`, the keywords by concatenation, and every
other field is untouched. -/
theorem foldl_ruleStep_some (l : List MatchResult) (a : Accum) :
    l.foldl ruleStep (some a) =
      some { a with
        rule_confidence := (l.map (·.confidence)).foldl max a.rule_confidence
        matched_keywords := a.matched_keywords ++ (l.map (·.matched_keywords)).flatten } := by
  induction l generalizing a with
  | nil => simp
  | cons r l ih =>
      rw [List.foldl_cons]
      show l.foldl ruleStep (some (updRuleAccum a r)) = _
      rw [ih (updRuleAccum a r)]
      simp [updRuleAccum, List.append_assoc]

/-- Folding the per-key semantic step over an existing entry: the last
semantic value wins; every other field is untouched. -/
theorem foldl_semStep_some (l : List SemResult) (a : Accum) :
    l.foldl semStep (some a) =
      some { a with semantic_confidence :=
        ((l.map (·.avg_similarity)).getLast?).getD a.semantic_confidence } := by
  induction l using List.reverseRecOn with
  | nil => simp
  | append_singleton l s ih =>
      rw [List.foldl_append, ih, List.foldl_cons, List.foldl_nil, List.map_append]
      simp only [List.map_cons, List.map_nil]
      rw [List.getLast?_concat]
      rfl

/-- `foldl max` computes a maximum: it is one of the candidates and
dominates all of them. -/
theorem foldl_max_mem (c : ℚ) (l : List ℚ) : l.foldl max c ∈ c :: l := by
  induction l generalizing c with
  | nil => exact List.mem_singleton.2 rfl
  | cons x xs ih =>
      rw [List.foldl_cons]
      rcases List.mem_cons.1 (ih (max c x)) with h | h
      · rcases max_choice c x with hm | hm
        · rw [h, hm]
          exact List.mem_cons_self _ _
        · rw [h, hm]
          exact List.mem_cons_of_mem _ (List.mem_cons_self _ _)
      · exact List.mem_cons_of_mem _ (List.mem_cons_of_mem _ h)

theorem le_foldl_max_init (c : ℚ) (l : List ℚ) : c ≤ l.foldl max c := by
  induction l generalizing c with
  | nil => exact le_refl c
  | cons x xs ih => exact le_trans (le_max_left c x) (ih (max c x))

theorem foldl_max_ge (c : ℚ) (l : List ℚ) : ∀ d ∈ c :: l, d ≤ l.foldl max c := by
  intro d hd
  induction l generalizing c with
  | nil =>
      rcases List.mem_cons.1 hd with rfl | h
      · exact le_refl d
      · exact absurd h (List.not_mem_nil d)
  | cons x xs ih =>
      rw [List.foldl_cons]
      rcases List.mem_cons.1 hd with rfl | h
      · exact le_trans (le_max_left d x) (le_foldl_max_init _ xs)
      · rcases List.mem_cons.1 h with rfl | h'
        · exact le_trans (le_max_right c d) (le_foldl_max_init _ xs)
        · exact ih (max c x) (List.mem_cons_of_mem _ h')


/-! ## Uniqueness of the accumulator keys -/

theorem nodupKeys_addRule (r : MatchResult) {m : List Accum}
    (h : (m.map fun a => a.sdg_number).Nodup) :
    ((addRule m r).map fun a => a.sdg_number).Nodup := by
  unfold addRule
  by_cases hmem : (m.any fun b => b.sdg_number == r.sdg_number) = true
  · rw [if_pos hmem]
    have hkeys : ((m.map fun a =>
        if a.sdg_number == r.sdg_number then updRuleAccum a r else a).map
          fun a => a.sdg_number) = m.map fun a => a.sdg_number := by
      rw [List.map_map]
      refine List.map_congr_left ?_
      intro a _
      by_cases hk : (a.sdg_number == r.sdg_number) = true
      · simp only [Function.comp_apply, if_pos hk]
        rfl
      · simp only [Function.comp_apply, if_neg hk]
    rw [hkeys]
    exact h
  · rw [if_neg hmem, List.map_append]
    rw [List.nodup_append]
    refine ⟨h, List.nodup_singleton _, ?_⟩
    intro x hx hx'
    rcases List.mem_map.1 hx with ⟨a, ha, rfl⟩
    have hx'' : a.sdg_number = (newRuleAccum r).sdg_number := by
      simpa using hx'
    exact hmem (List.any_eq_true.2 ⟨a, ha, beq_iff_eq.2 hx''⟩)

theorem nodupKeys_addSem (s : SemResult) {m : List Accum}
    (h : (m.map fun a => a.sdg_number).Nodup) :
    ((addSem m s).map fun a => a.sdg_number).Nodup := by
  unfold addSem
  by_cases hmem : (m.any fun b => b.sdg_number == s.sdg_number) = true
  · rw [if_pos hmem]
    have hkeys : ((m.map fun a =>
        if a.sdg_number == s.sdg_number then
          { a with semantic_confidence := s.avg_similarity } else a).map
          fun a => a.sdg_number) = m.map fun a => a.sdg_number := by
      rw [List.map_map]
      refine List.map_congr_left ?_
      intro a _
      by_cases hk : (a.sdg_number == s.sdg_number) = true
      · simp only [Function.comp_apply, if_pos hk]
      · simp only [Function.comp_apply, if_neg hk]
    rw [hkeys]
    exact h
  · rw [if_neg hmem, List.map_append]
    rw [List.nodup_append]
    refine ⟨h, List.nodup_singleton _, ?_⟩
    intro x hx hx'
    rcases List.mem_map.1 hx with ⟨a, ha, rfl⟩
    have hx'' : a.sdg_number = (newSemAccum s).sdg_number := by
      simpa using hx'
    exact hmem (List.any_eq_true.2 ⟨a, ha, beq_iff_eq.2 hx''⟩)

theorem nodupKeys_foldRule (rs : List MatchResult) {m : List Accum}
    (h : (m.map fun a => a.sdg_number).Nodup) :
    (((rs.foldl addRule m)).map fun a => a.sdg_number).Nodup := by
  induction rs generalizing m with
  | nil => exact h
  | cons r rs ih => exact ih (nodupKeys_addRule r h)

theorem nodupKeys_foldSem (ss : List SemResult) {m : List Accum}
    (h : (m.map fun a => a.sdg_number).Nodup) :
    (((ss.foldl addSem m)).map fun a => a.sdg_number).Nodup := by
  induction ss generalizing m with
  | nil => exact h
  | cons s ss ih => exact ih (nodupKeys_addSem s h)

theorem nodupKeys_combineResults (rule : List MatchResult) (sem : List SemResult) :
    ((combineResults rule sem).map fun a => a.sdg_number).Nodup := by
  have hpre : ((combinePre rule sem).map fun a => a.sdg_number).Nodup := by
    unfold combinePre
    have hkeys : (((sem.foldl addSem (rule.foldl addRule [])).map finalizeAccum).map
        fun a => a.sdg_number) =
        (sem.foldl addSem (rule.foldl addRule [])).map fun a => a.sdg_number := by
      rw [List.map_map]
      exact List.map_congr_left fun a _ => rfl
    rw [hkeys]
    exact nodupKeys_foldSem sem (nodupKeys_foldRule rule (by simp))
  have hperm := (perm_sortDesc (fun a : Accum => a.combined_confidence)
    (combinePre rule sem)).map fun a => a.sdg_number
  exact hperm.symm.nodup hpre


/-- The accumulator obtained after merging the rule entries `rh :: rt` of
one SDG key (the shape `foldl_ruleStep_some` produces). -/
def mergedRuleAccum (rh : MatchResult) (rt : List MatchResult) : Accum :=
  { newRuleAccum rh with
    rule_confidence := (rt.map fun r => r.confidence).foldl max
      (newRuleAccum rh).rule_confidence
    matched_keywords := (newRuleAccum rh).matched_keywords ++
      (rt.map fun r => r.matched_keywords).flatten }

/-- The same accumulator after the semantic entries `sf` of that key have
been merged in. -/
def mergedAccum (rh : MatchResult) (rt : List MatchResult) (sf : List SemResult) : Accum :=
  { mergedRuleAccum rh rt with
    semantic_confidence := ((sf.map fun s => s.avg_similarity).getLast?).getD
      (mergedRuleAccum rh rt).semantic_confidence }

/-- C5: when an SDG number occurs in both the rule-based and the semantic
input of `_combine_results`, the (unique) merged record for it carries the
*maximum* of the rule confidences (never their sum), the deduplicated union
of the rule keyword lists, and the semantic confidence *overwritten* by the
(last) semantic entry's `avg_similarity` (not an average). -/
theorem C5_merge_semantics (rule : List MatchResult) (sem : List SemResult) (n : Nat)
    (h₁ : ∃ r ∈ rule, r.sdg_number = n) (h₂ : ∃ s ∈ sem, s.sdg_number = n) :
    ∃ a ∈ combineResults rule sem,
      a.sdg_number = n ∧
      (∀ b ∈ combineResults rule sem, b.sdg_number = n → b = a) ∧
      (a.rule_confidence ∈
          ((rule.filter fun r => r.sdg_number == n).map fun r => r.confidence) ∧
        ∀ c ∈ ((rule.filter fun r => r.sdg_number == n).map fun r => r.confidence),
          c ≤ a.rule_confidence) ∧
      (∀ k, k ∈ a.matched_keywords ↔
          ∃ r ∈ rule, r.sdg_number = n ∧ k ∈ r.matched_keywords) ∧
      a.matched_keywords.Nodup ∧
      (∃ slast, (sem.filter fun s => s.sdg_number == n).getLast? = some slast ∧
        a.semantic_confidence = slast.avg_similarity) := by
  obtain ⟨r₀, hr₀, hr₀n⟩ := h₁
  obtain ⟨s₀, hs₀, hs₀n⟩ := h₂
  have hrf : r₀ ∈ rule.filter fun r => r.sdg_number == n :=
    List.mem_filter.2 ⟨hr₀, beq_iff_eq.2 hr₀n⟩
  rcases hfr : rule.filter (fun r => r.sdg_number == n) with - | ⟨rh, rt⟩
  · rw [hfr] at hrf
    exact absurd hrf (List.not_mem_nil _)
  have hsf : s₀ ∈ sem.filter fun s => s.sdg_number == n :=
    List.mem_filter.2 ⟨hs₀, beq_iff_eq.2 hs₀n⟩
  rcases hfs : sem.filter (fun s => s.sdg_number == n) with - | ⟨sh, st⟩
  · rw [hfs] at hsf
    exact absurd hsf (List.not_mem_nil _)
  have hrh : rh.sdg_number = n := by
    have hmemrh : rh ∈ rule.filter fun r => r.sdg_number == n := by
      rw [hfr]
      exact List.mem_cons_self _ _
    have hp := List.of_mem_filter hmemrh
    exact beq_iff_eq.1 hp
  -- the entry after the rule fold
  have hM1 : findA n (rule.foldl addRule []) =
      rt.foldl ruleStep (some (newRuleAccum rh)) := by
    rw [findA_foldRule, hfr]
    rfl
  rw [foldl_ruleStep_some] at hM1
  -- the entry after the semantic fold
  have hM2 : findA n (sem.foldl addSem (rule.foldl addRule [])) =
      some (mergedAccum rh rt (sh :: st)) := by
    rw [findA_foldSem, hfs, hM1, foldl_semStep_some]
    rfl
  -- the entry in the finalized accumulator list
  have hfind : findA n (combinePre rule sem) =
      some (finalizeAccum (mergedAccum rh rt (sh :: st))) := by
    unfold combinePre
    rw [@findA_map finalizeAccum (fun a => rfl) n _, hM2]
    rfl
  have hmem_pre : finalizeAccum (mergedAccum rh rt (sh :: st)) ∈ combinePre rule sem :=
    List.mem_of_find?_eq_some hfind
  have hmem : finalizeAccum (mergedAccum rh rt (sh :: st)) ∈ combineResults rule sem :=
    mem_sortDesc.2 hmem_pre
  have han : (finalizeAccum (mergedAccum rh rt (sh :: st))).sdg_number = n := hrh
  refine ⟨finalizeAccum (mergedAccum rh rt (sh :: st)), hmem, han, ?_, ?_, ?_, ?_, ?_⟩
  · -- uniqueness
    intro b hb hbn
    exact List.inj_on_of_nodup_map (nodupKeys_combineResults rule sem) hb hmem
      (by rw [hbn, han])
  · -- rule confidence is the maximum of the rule entries
    constructor
    · rw [hfr, List.map_cons]
      exact foldl_max_mem rh.confidence (rt.map fun r => r.confidence)
    · intro c hc
      rw [hfr, List.map_cons] at hc
      exact foldl_max_ge rh.confidence (rt.map fun r => r.confidence) c hc
  · -- keywords: deduplicated union of the rule entries' lists
    intro k
    have hkw : (finalizeAccum (mergedAccum rh rt (sh :: st))).matched_keywords =
        (((rule.filter fun r => r.sdg_number == n).map
          fun r => r.matched_keywords).flatten).dedup := by
      rw [hfr, List.map_cons, List.flatten_cons]
      rfl
    rw [hkw, List.mem_dedup, List.mem_flatten]
    constructor
    · rintro ⟨L, hL, hkL⟩
      rcases List.mem_map.1 hL with ⟨r, hr, rfl⟩
      have hrr := List.mem_filter.1 hr
      exact ⟨r, hrr.1, beq_iff_eq.1 hrr.2, hkL⟩
    · rintro ⟨r, hr, hrn, hkr⟩
      exact ⟨r.matched_keywords,
        List.mem_map.2 ⟨r, List.mem_filter.2 ⟨hr, beq_iff_eq.2 hrn⟩, rfl⟩, hkr⟩
  · -- deduplication
    have hkw : (finalizeAccum (mergedAccum rh rt (sh :: st))).matched_keywords =
        (mergedAccum rh rt (sh :: st)).matched_keywords.dedup := rfl
    rw [hkw]
    exact List.nodup_dedup _
  · -- semantic confidence: the last semantic entry wins
    rcases List.eq_nil_or_concat (sh :: st) with hnil | ⟨L, b, hconcat⟩
    · exact absurd hnil (List.cons_ne_nil sh st)
    · refine ⟨b, ?_, ?_⟩
      · rw [hfs, hconcat, List.concat_eq_append, List.getLast?_concat]
      · show (((sh :: st).map fun s => s.avg_similarity).getLast?).getD
          (mergedRuleAccum rh rt).semantic_confidence = b.avg_similarity
        rw [hconcat, List.concat_eq_append, List.map_append]
        simp only [List.map_cons, List.map_nil]
        rw [List.getLast?_concat]
        rfl


/-- C5 witness: the merge characterization on a concrete run with two rule
entries and two semantic entries for SDG 2. -/
theorem C5_witness :
    ∃ a ∈ combineResults [ruleTwo, ruleTwoB] [semTwoA, semTwoB],
      a.sdg_number = 2 ∧
      (∀ b ∈ combineResults [ruleTwo, ruleTwoB] [semTwoA, semTwoB],
          b.sdg_number = 2 → b = a) ∧
      (a.rule_confidence ∈
          (([ruleTwo, ruleTwoB].filter fun r => r.sdg_number == 2).map
            fun r => r.confidence) ∧
        ∀ c ∈ (([ruleTwo, ruleTwoB].filter fun r => r.sdg_number == 2).map
            fun r => r.confidence),
          c ≤ a.rule_confidence) ∧
      (∀ k, k ∈ a.matched_keywords ↔
          ∃ r ∈ [ruleTwo, ruleTwoB], r.sdg_number = 2 ∧ k ∈ r.matched_keywords) ∧
      a.matched_keywords.Nodup ∧
      (∃ slast, ([semTwoA, semTwoB].filter fun s => s.sdg_number == 2).getLast? =
          some slast ∧
        a.semantic_confidence = slast.avg_similarity) :=
  C5_merge_semantics [ruleTwo, ruleTwoB] [semTwoA, semTwoB] 2
    ⟨ruleTwo, by decide, rfl⟩ ⟨semTwoA, by decide, rfl⟩

end SDG
